import Mathlib

/-
Verification of the AI_Fitness reconciliation and analytics engines.

The definitions below are a shallow embedding of the Python source:
  * `history_hevy_import.py`  — set-level (hevy) reconciliation, Normal and Force modes;
  * `history_garmin_import.py` — daily-aggregate (garmin) reconciliation: Normal
    (skip existing dates), Backfill (merge only empty fields) and Force
    (replace row outright), plus its `normalize_date` helper;
  * `daily_garmin_health.py` / `update_yesterday_garmin.py` — daily save with the
    abort-on-unreadable-store guard and the total `normalize_date` variant;
  * `Gemini_Hevy.py` — `calculate_one_rep_max`, `aggregate_training_data`
    (muscle-group summary and per-exercise records) and
    `calculate_strength_trends` (trend classification).

Python strings are modelled as `String` with all manipulation done on the
underlying `List Char` (Python `str.split`, `str.strip`, `in`, `int()` are
re-implemented structurally below so that every definition evaluates inside the
kernel).  Machine floats of the analytics code are modelled as exact rationals.
CSV cell values are `Option String` (`none` is Python `None`).  A Python
exception is modelled as `Option.none` in the result of the function that can
raise.
-/

namespace AIFitness

/-! ### Python string primitives on `List Char` -/

/-- Lexicographic `≤` on character lists by code point — the comparison Python
uses for `str` (and the one `list.sort(key=lambda x: x[0])` relies on). -/
def lexLe : List Char → List Char → Bool
  | [], _ => true
  | _ :: _, [] => false
  | a :: as, b :: bs => if a = b then lexLe as bs else decide (a < b)

/-- Python `s <= t` on strings. -/
def strLe (a b : String) : Bool := lexLe a.data b.data

/-- Python `str.split(sep)` for a single-character separator. -/
def splitChar (sep : Char) : List Char → List (List Char)
  | [] => [[]]
  | c :: cs =>
    match splitChar sep cs with
    | [] => [[]]
    | h :: t => if c = sep then [] :: h :: t else (c :: h) :: t

/-- Python `str.strip()` on the character list. -/
def pyStripList (cs : List Char) : List Char :=
  ((cs.dropWhile Char.isWhitespace).reverse.dropWhile Char.isWhitespace).reverse

/-- Python `str.strip()`. -/
def pyStrip (s : String) : String := ⟨pyStripList s.data⟩

/-- Python `c in s` for a single character. -/
def strContains (s : String) (c : Char) : Bool := s.data.any (· = c)

/-- Value of a non-empty digit string. -/
def digitsVal (cs : List Char) : Nat := cs.foldl (fun n c => 10 * n + (c.toNat - 48)) 0

/-- Python `int(s)`: strips whitespace, allows one sign, then requires a
non-empty run of digits; `none` models the `ValueError` raised otherwise.
(Underscore digit grouping accepted by CPython is outside the modelled scope;
no input under study uses it.) -/
def pyIntOf (s : String) : Option Int :=
  match pyStripList s.data with
  | [] => none
  | '+' :: rest =>
      if rest ≠ [] ∧ rest.all Char.isDigit then some (digitsVal rest) else none
  | '-' :: rest =>
      if rest ≠ [] ∧ rest.all Char.isDigit then some (-(digitsVal rest : Int)) else none
  | cs => if cs.all Char.isDigit then some (digitsVal cs) else none

/-- Python `f"{n:02d}"`: zero-pad to overall width 2. -/
def fmt02d (n : Int) : String :=
  let s := toString n
  if s.length < 2 then "0" ++ s else s

/-! ### DateKey Normalizer

Two variants exist in the source.  `normalizeDateHist` is
`history_garmin_import.normalize_date` (no exception handler: `int()` can
raise, modelled as `none`).  `normalizeDateSafe` is the
`update_yesterday_garmin.py` / `daily_garmin_health.py` variant: it first
handles ISO, wraps everything in `try/except` returning the input unchanged,
and returns Python `None` (modelled as `none`) on a falsy input. -/

/-- `normalize_date` of `history_garmin_import.py`. `none` models the
`ValueError` escaping the function when a 3-part slash date has a
non-numeric component. -/
def normalizeDateHist (dateStr : String) : Option String :=
  if strContains dateStr '/' then
    match splitChar '/' dateStr.data with
    | [m, d, y] =>
      match pyIntOf ⟨m⟩, pyIntOf ⟨d⟩ with
      | some mi, some di => some (String.mk y ++ "-" ++ fmt02d mi ++ "-" ++ fmt02d di)
      | _, _ => none
    | _ => some dateStr
  else some dateStr

/-- `normalize_date` of `update_yesterday_garmin.py` (identical in
`daily_garmin_health.py`).  Total: the `try/except` returns the input
unchanged on parse failure; `none` here models the explicit `return None`
taken on a falsy (empty) input, not an exception. -/
def normalizeDateSafe (dateStr : String) : Option String :=
  if dateStr = "" then none
  else if strContains dateStr '-' ∧ dateStr.length = 10 then some dateStr
  else if strContains dateStr '/' then
    match splitChar '/' dateStr.data with
    | [m, d, y] =>
      match pyIntOf ⟨m⟩, pyIntOf ⟨d⟩ with
      | some mi, some di => some (String.mk y ++ "-" ++ fmt02d mi ++ "-" ++ fmt02d di)
      | _, _ => some dateStr
    | _ => some dateStr
  else some dateStr

/-! ### Hevy set-level reconciler (`history_hevy_import.py`)

One CSV row of `hevy_stats.csv`: `Date, Workout, Exercise, Set, Weight (lbs),
Reps, RPE, Type` — all serialized as strings.  The record key (line 112 /
line 189 of the source) is the `(date, workout, exercise, set-number)`
quadruple. -/

structure HRow where
  date : String
  workout : String
  exercise : String
  setIndex : String
  weight : String
  reps : String
  rpe : String
  setTag : String
deriving DecidableEq

/-- `key = (row[0], row[1], row[2], row[3])`. -/
def hkey (r : HRow) : String × String × String × String :=
  (r.date, r.workout, r.exercise, r.setIndex)

/-- The relation used by `all_new_rows.sort(key=lambda x: x[0], reverse=True)`:
a stable sort that puts larger date strings first. -/
def hevyDateDesc (a b : HRow) : Prop := strLe b.date a.date = true

instance : DecidableRel hevyDateDesc := fun a b =>
  inferInstanceAs (Decidable (strLe b.date a.date = true))

/-- The final `sort(key=lambda x: x[0], reverse=True)` before the rewrite:
stable descending sort by date string. -/
def hevySortDesc (l : List HRow) : List HRow := l.insertionSort hevyDateDesc

/-- Normal-mode pass of `history_hevy_import.main`: each incoming set is
skipped iff its key is in `existing_entries` (the key set of the *loaded*
file — the set is never extended during the pass), survivors are appended
after the existing rows, and the file is rewritten sorted newest-first.
When `all_new_rows` is empty no write happens and the store is unchanged. -/
def hevyReconcileNormal (S B : List HRow) : List HRow :=
  let keep := B.filter fun b => ! S.any fun s => decide (hkey s = hkey b)
  let allRows := S ++ keep
  if allRows.isEmpty then S else hevySortDesc allRows

/-- Force-mode pass: `existing_rows`/`existing_entries` are cleared up front
(lines 115-118), so every incoming set is kept and the rewrite contains only
the batch; an empty batch writes nothing, leaving the store as loaded. -/
def hevyReconcileForce (S B : List HRow) : List HRow :=
  if B.isEmpty then S else hevySortDesc B

/-- The persisted `hevy_stats.csv` as the run sees it: parseable rows, or a
file whose read raises (`corrupt`). -/
inductive HevyFile
  | corrupt
  | ok (rows : List HRow)
deriving DecidableEq

/-- A whole normal-mode run of `history_hevy_import.main` against the persisted
file.  On a read failure the script only prints
`Warning: Could not read existing file` and continues with an empty in-memory
store (`existing_rows = []`, `existing_entries = set()`), so a non-empty batch
rewrites the file from the batch alone. -/
def hevyHistoryRun (f : HevyFile) (B : List HRow) : HevyFile :=
  match f with
  | .ok S => .ok (hevyReconcileNormal S B)
  | .corrupt => if B.isEmpty then .corrupt else .ok (hevyReconcileNormal [] B)

/-! ### Garmin daily-aggregate reconciler (`history_garmin_import.py`)

A stored or fetched row is a list of cells; a cell is `Option String`
(Python `None` or a scalar serialized to a string).  Rows loaded from the CSV
are taken already remapped to the current 26-column header (the positional
`col_mapping` remap of lines 138-156 is schema plumbing outside every claim
under study); their date is cell 0. -/

abbrev Cell := Option String

/-- `old_val is not None and str(old_val).strip() != ''` (line 373). -/
def populatedCell (c : Cell) : Bool :=
  match c with
  | none => false
  | some s => !(pyStripList s.data).isEmpty

/-- One step of the backfill merge loop (lines 371-376): keep the existing
value if populated, else take the incoming one. -/
def mergeCell (oldC newC : Cell) : Cell :=
  if populatedCell oldC then oldC else newC

/-- `zip(old_row, row)` + per-position merge (lines 370-376). -/
def mergeRow (oldRow newRow : List Cell) : List Cell :=
  List.zipWith mergeCell oldRow newRow

abbrev GRow := List Cell

/-- `row[0]` as a string (loaded rows are non-empty — `if row:` — and their
first cell is the serialized date). -/
def rowDate (r : GRow) : String := (r.headD (some "")).getD ""

/-- `existing_data`: a Python dict, insertion-ordered association list with
`d[k] = v` replacing in place. -/
abbrev GDict := List (String × GRow)

def dictLookup (k : String) : GDict → Option GRow
  | [] => none
  | (k₂, v) :: t => if k₂ = k then some v else dictLookup k t

def dictInsert (k : String) (v : GRow) : GDict → GDict
  | [] => [(k, v)]
  | (k₂, v₂) :: t => if k₂ = k then (k, v) :: t else (k₂, v₂) :: dictInsert k v t

/-- Loading loop of lines 146-156 in backfill/force mode:
`existing_data[normalize_date(row[0])] = row`.  `none` models the run dying on
a `ValueError` from `normalize_date`. -/
def garminIndex (S : List GRow) : Option GDict :=
  S.foldlM (fun acc r => (normalizeDateHist (rowDate r)).map fun nd => dictInsert nd r acc) []

/-- `existing_dates` built by the same loop (all modes): the normalized date
of every loaded row, in order; `none` models the loop dying on a `ValueError`
from `normalize_date`. -/
def garminDatesIdx : List GRow → Option (List String)
  | [] => some []
  | r :: t =>
    (normalizeDateHist (rowDate r)).bind fun nd => (garminDatesIdx t).map fun ds => nd :: ds

/-- Normal mode of `history_garmin_import.main`: each fetched day (key
`day_str`, already ISO) is skipped when `day_str in existing_dates`; surviving
rows are appended to the file in fetch order.  `existing_dates` is not
extended during the loop. -/
def garminNormal (S B : List GRow) : Option (List GRow) :=
  (garminDatesIdx S).map fun ds =>
    S ++ B.filter fun b => !(decide (rowDate b ∈ ds))

/-- One fetched day in backfill mode (lines 366-380): a day present in
`existing_data` has its stored row replaced by the field-wise merge, a new day
is inserted. -/
def backfillStep (acc : GDict) (b : GRow) : GDict :=
  match dictLookup (rowDate b) acc with
  | some oldRow => dictInsert (rowDate b) (mergeRow oldRow b) acc
  | none => dictInsert (rowDate b) b acc

/-- Backfill mode of `history_garmin_import.main`: fold the fetched days over
the loaded dict; the dict is rewritten wholesale at the end (sorting for the
write does not change its contents). -/
def garminBackfill (S B : List GRow) : Option GDict :=
  (garminIndex S).map fun idx => B.foldl backfillStep idx

/-- One fetched day in force mode (lines 362-364):
`existing_data[day_str] = row` outright. -/
def forceStep (acc : GDict) (b : GRow) : GDict := dictInsert (rowDate b) b acc

/-- Force mode of `history_garmin_import.main`. -/
def garminForce (S B : List GRow) : Option GDict :=
  (garminIndex S).map fun idx => B.foldl forceStep idx

/-- Field-preservation: every populated cell of `oldRow` appears unchanged at
the same position of `r`. -/
def preservesPopulated (oldRow r : List Cell) : Prop :=
  ∀ i (hr : i < r.length) (ho : i < oldRow.length),
    populatedCell (oldRow.get ⟨i, ho⟩) = true → r.get ⟨i, hr⟩ = oldRow.get ⟨i, ho⟩

/-! ### Daily health save (`daily_garmin_health.py`, lines 299-322)

On a read failure the script prints `Aborting to prevent data loss` and
returns before any write: the persisted file is left exactly as it was. -/

inductive GarminFile
  | corrupt
  | ok (rows : List GRow)
deriving DecidableEq

/-- Sort key `normalize_date(x[0]) if x else ''` with `none` ordered first;
Python would raise `TypeError` when comparing `None` against a string, a case
no claim under study reaches (it needs a row whose date cell is empty). -/
def optStrLe (a b : Option String) : Bool :=
  match a, b with
  | none, _ => true
  | some _, none => false
  | some x, some y => strLe x y

def dailyDesc (a b : GRow) : Prop :=
  optStrLe (normalizeDateSafe (rowDate b)) (normalizeDateSafe (rowDate a)) = true

instance : DecidableRel dailyDesc := fun a b =>
  inferInstanceAs
    (Decidable (optStrLe (normalizeDateSafe (rowDate b)) (normalizeDateSafe (rowDate a)) = true))

/-- The smart-save of `daily_garmin_health.main`: abort (no write) when the
existing file cannot be read; otherwise drop rows whose normalized date equals
`today`, append the fresh row, sort newest-first and rewrite. -/
def dailyHealthSave (f : GarminFile) (newRow : GRow) (today : String) : GarminFile :=
  match f with
  | .corrupt => .corrupt
  | .ok rows =>
    let kept := rows.filter fun r =>
      !r.isEmpty && !(decide (normalizeDateSafe (rowDate r) = some today))
    .ok ((kept ++ [newRow]).insertionSort dailyDesc)

/-! ### Metric Aggregator and Trend Classifier (`Gemini_Hevy.py`)

Pandas float64 arithmetic is modelled over exact rationals; `pandas.Timestamp`
values are abstracted to an integer time line (`PyDate.val`), with
`pd.to_datetime` carrying a raw string column to its timestamp column. -/

/-- `calculate_one_rep_max` (lines 78-82): Epley formula with the degenerate
zero guard. -/
def calculateOneRepMax (weight reps : ℚ) : ℚ :=
  if reps = 0 ∨ weight = 0 then 0 else weight * (1 + reps / 30)

/-- Maximum of a column (`groupby(...).max()` / `'max'` aggregation): `none`
on an empty group. -/
def maxQ : List ℚ → Option ℚ
  | [] => none
  | x :: xs => some (xs.foldl max x)

/-- `numpy` round-half-to-even of a rational. -/
def roundHalfEven (x : ℚ) : ℤ :=
  if x - ⌊x⌋ < 1 / 2 then ⌊x⌋
  else if x - ⌊x⌋ = 1 / 2 then (if ⌊x⌋ % 2 = 0 then ⌊x⌋ else ⌊x⌋ + 1)
  else ⌊x⌋ + 1

/-- `.round(1)` applied to the `Trend_Pct` column (line 189). -/
def round1 (x : ℚ) : ℚ := (roundHalfEven (x * 10) : ℚ) / 10

/-- `.round(2)` applied to the aggregated stats (lines 127, 137). -/
def round2 (x : ℚ) : ℚ := (roundHalfEven (x * 100) : ℚ) / 100

inductive TrendStatus
  | plateau
  | regressing
  | progressing
deriving DecidableEq

/-- The classification lambda of line 191:
`'PLATEAU' if -2 <= x <= 2 else ('REGRESSING' if x < -2 else 'PROGRESSING')`. -/
def classifyTrend (x : ℚ) : TrendStatus :=
  if -2 ≤ x ∧ x ≤ 2 then .plateau
  else if x < -2 then .regressing
  else .progressing

/-- `(recent_max − all_time_max) / all_time_max × 100` (line 189, before the
`.round(1)`). -/
def rawTrendPct (recentMax allTimeMax : ℚ) : ℚ :=
  (recentMax - allTimeMax) / allTimeMax * 100

/-- One strength set as `calculate_strength_trends` sees it after the
date-parsing step: exercise name, weight, reps, and its day on the integer
time line. -/
structure TSet where
  exercise : String
  weight : ℚ
  reps : ℚ
  day : ℤ
deriving DecidableEq

/-- Max estimated 1RM of one exercise group (`groupby('Exercise')['estimated_1rm'].max()`). -/
def groupMax1RM (rows : List TSet) (ex : String) : Option ℚ :=
  maxQ ((rows.filter fun s => decide (s.exercise = ex)).map fun s =>
    calculateOneRepMax s.weight s.reps)

/-- Per-exercise result of `calculate_strength_trends` (lines 149-194): filter
to the history window, take recent and all-time max 1RM, and classify the
1-decimal-rounded percentage change.  `none` when the exercise is missing from
either window (the `dropna` of line 184; the early `return None`s on empty
frames classify nothing, which agrees with `none` here). -/
def trendOfExercise (rows : List TSet) (recentCutoff historyCutoff : ℤ) (ex : String) :
    Option TrendStatus :=
  let hist := rows.filter fun s => decide (historyCutoff ≤ s.day)
  let recent := hist.filter fun s => decide (recentCutoff ≤ s.day)
  match groupMax1RM recent ex, groupMax1RM hist ex with
  | some r, some h => some (classifyTrend (round1 (rawTrendPct r h)))
  | _, _ => none

/-- A `Date` cell of the stats frame: a raw string (carrying the instant it
denotes) before `pd.to_datetime`, a timestamp after. -/
inductive PyDate
  | raw (s : String) (v : ℤ)
  | ts (v : ℤ)
deriving DecidableEq

def PyDate.val : PyDate → ℤ
  | raw _ v => v
  | ts v => v

/-- One row of `hevy_stats.csv` as `aggregate_training_data` consumes it. -/
structure SRow where
  day : PyDate
  exercise : String
  weight : ℚ
  reps : ℚ
deriving DecidableEq

/-- One row of the exercise catalog (`HEVY APP exercises.csv`). -/
structure CatRow where
  title : String
  primaryMuscle : String
  secondaryMuscle : String
deriving DecidableEq

/-- The catalog dataframe; `titleClean` records whether the mutable
`title_clean` column has been added (line 112) and what it holds. -/
structure CatalogDF where
  rows : List CatRow
  titleClean : Option (List String)
deriving DecidableEq

/-- `exercise_db_df['title_clean'] = exercise_db_df['title'].str.strip()`. -/
def addTitleClean (c : CatalogDF) : CatalogDF :=
  { c with titleClean := some (c.rows.map fun r => pyStrip r.title) }

/-- A row of `merged_data` (line 115): the set, its derived columns, and the
muscle groups brought in by the left merge (`none` = NaN, no catalog match). -/
structure MRow where
  base : SRow
  est1rm : ℚ
  volume : ℚ
  muscle : Option String
  secondary : Option String
deriving DecidableEq

/-- The left merge of lines 115-120 on trimmed exercise title: a set with no
catalog match yields one row with NaN muscle groups; a set with k matches
yields k rows (pandas many-to-many merge semantics). -/
def mergeLeft (rows : List SRow) (cat : List CatRow) : List MRow :=
  rows.flatMap fun r =>
    let e1 := calculateOneRepMax r.weight r.reps
    let vol := r.weight * r.reps
    match cat.filter (fun c => decide (pyStrip c.title = pyStrip r.exercise)) with
    | [] => [⟨r, e1, vol, none, none⟩]
    | ms => ms.map fun c => ⟨r, e1, vol, some c.primaryMuscle, some c.secondaryMuscle⟩

/-- Ascending name order used by `groupby(..., sort=True)` for its keys. -/
def strAsc (a b : String) : Prop := strLe a b = true

instance : DecidableRel strAsc := fun a b =>
  inferInstanceAs (Decidable (strLe a b = true))

/-- The distinct non-null muscle groups, in `groupby` key order.  NaN keys are
dropped: pandas `groupby` defaults to `dropna=True`. -/
def muscleKeys (m : List MRow) : List String :=
  ((m.filterMap fun r => r.muscle).dedup).insertionSort strAsc

/-- `muscle_group_stats` (lines 123-129): per muscle group the max estimated
1RM, summed volume and set count, rounded to 2 decimals. -/
def muscleSummary (m : List MRow) : List (String × ℚ × ℚ × ℕ) :=
  (muscleKeys m).map fun g =>
    let grp := m.filter fun r => decide (r.muscle = some g)
    (g, round2 ((maxQ (grp.map fun r => r.est1rm)).getD 0),
        round2 ((grp.map fun r => r.volume).sum),
        grp.length)

/-- Total number of sets reported across the muscle-group summary. -/
def summarySetCount (l : List (String × ℚ × ℚ × ℕ)) : ℕ :=
  (l.map fun e => e.2.2.2).sum

/-- One line of `exercise_prs` (lines 131-140). -/
structure PRRow where
  exercise : String
  oneRM : ℚ
  maxWeight : ℚ
  maxReps : ℚ
  muscle : Option String
deriving DecidableEq

/-- `groupby('first')`: first non-null value of the group. -/
def firstSome (l : List (Option String)) : Option String := (l.filterMap id).head?

def exerciseKeys (m : List MRow) : List String :=
  ((m.map fun r => r.base.exercise).dedup).insertionSort strAsc

/-- Descending order on estimated 1RM used by
`sort_values('Estimated_1RM', ascending=False)`. -/
def prDesc (a b : PRRow) : Prop := b.oneRM ≤ a.oneRM

instance : DecidableRel prDesc := fun a b =>
  inferInstanceAs (Decidable (b.oneRM ≤ a.oneRM))

/-- `exercise_prs` (lines 131-140): per exercise the columnwise maxima of
estimated 1RM, weight and reps (independent `'max'` aggregations), the first
non-null muscle group, rounded, then ranked descending by estimated 1RM.
(pandas `sort_values` with the default kind is not stability-guaranteed; a
stable sort is one admissible outcome and ties never matter to a claim.) -/
def exercisePRs (m : List MRow) : List PRRow :=
  ((exerciseKeys m).map fun e =>
    let grp := m.filter fun r => decide (r.base.exercise = e)
    { exercise := e
      oneRM := round2 ((maxQ (grp.map fun r => r.est1rm)).getD 0)
      maxWeight := round2 ((maxQ (grp.map fun r => r.base.weight)).getD 0)
      maxReps := round2 ((maxQ (grp.map fun r => r.base.reps)).getD 0)
      muscle := firstSome (grp.map fun r => r.muscle) }).insertionSort prDesc

/-- The aggregate result (the `total_workouts` / `date_range` reporting fields
of lines 145-146 are outside every claim and omitted). -/
structure AggResult where
  muscleGroupSummary : List (String × ℚ × ℚ × ℕ)
  exercisePRList : List PRRow
deriving DecidableEq

/-- `aggregate_training_data` (lines 84-147).  Returns the result together
with the two caller-owned frames as the call leaves them: the stats frame has
its `Date` column converted in place (line 95, before the empty-window early
return), while `title_clean` is added to the catalog (line 112) only after
the early return did not fire. -/
def aggregateTrainingData (stats : List SRow) (catalog : CatalogDF) (cutoff : ℤ) :
    Option AggResult × List SRow × CatalogDF :=
  let stats2 := stats.map fun r => { r with day := PyDate.ts r.day.val }
  let recent := stats2.filter fun r => decide (cutoff ≤ r.day.val)
  if recent.isEmpty then (none, stats2, catalog)
  else
    let catalog2 := addTitleClean catalog
    let merged := mergeLeft recent catalog2.rows
    (some ⟨muscleSummary merged, exercisePRs merged⟩, stats2, catalog2)

/-! ### Concrete sample data used in the concrete theorems below -/

/-- A hevy set row. -/
def rowKeyDupA : HRow := ⟨"2024-01-01", "Push", "Bench Press", "1", "100", "5", "", "normal"⟩

/-- A second hevy set row with the same record key as `rowKeyDupA` but a
different RPE payload. -/
def rowKeyDupB : HRow := ⟨"2024-01-01", "Push", "Bench Press", "1", "100", "5", "8", "normal"⟩

/-- A hevy set row with a distinct record key. -/
def rowOther : HRow := ⟨"2024-01-02", "Pull", "Bent Over Row", "1", "80", "8", "", "normal"⟩

/-- A loaded garmin day row: weight populated, one missing cell, one
whitespace-only cell. -/
def gStoredRow : GRow := [some "2024-01-01", some "150", none, some " "]

/-- A freshly fetched garmin row for the same day carrying different values
everywhere. -/
def gFetchedRow : GRow := [some "2024-01-01", some "999", some "20", some "7"]

/-- A freshly fetched garmin row for a different day. -/
def gFetchedOther : GRow := [some "2024-01-03", some "160", some "21", some "8"]

/-- History-window set: estimated 1RM `75 × (1 + 10/30) = 100`. -/
def setHistory : TSet := ⟨"Bench Press", 75, 10, 0⟩

/-- Recent-window set: estimated 1RM `73.4925 × (1 + 10/30) = 97.99`, i.e.
a raw trend of exactly −2.01 % against `setHistory`. -/
def setRecent : TSet := ⟨"Bench Press", 734925 / 10000, 10, 10⟩

/-- A stats row (raw date string) whose exercise has no catalog match. -/
def statRowUnmatched : SRow := ⟨PyDate.raw "2024-01-05" 5, "Mystery Move", 100, 5⟩

/-- A heavy single: estimated 1RM `100 × (1 + 1/30) = 103.33…`, the argmax set. -/
def statRowHeavySingle : SRow := ⟨PyDate.ts 10, "Bench Press", 100, 1⟩

/-- A light high-rep set of the same exercise: estimated 1RM `83.33…`. -/
def statRowLightMany : SRow := ⟨PyDate.ts 10, "Bench Press", 50, 20⟩

/-- One catalog line. -/
def catalogBench : CatRow := ⟨"Bench Press", "Chest", ""⟩

/-- A catalog frame before any call (`title_clean` column absent). -/
def catalogSample : CatalogDF := ⟨[catalogBench], none⟩

/-- The personal-record line the aggregator reports for
`[statRowHeavySingle, statRowLightMany]`: reps column is the independent
maximum 20, not the 1 rep of the argmax set. -/
def prReported : PRRow := ⟨"Bench Press", 10333 / 100, 100, 20, none⟩

/-! ### Order lemmas for the lexicographic comparison -/

theorem lexLe_total : ∀ as bs : List Char, lexLe as bs = true ∨ lexLe bs as = true := by
  intro as
  induction as with
  | nil => intro bs; left; rfl
  | cons a as ih =>
    intro bs
    cases bs with
    | nil => right; rfl
    | cons b bs =>
      by_cases hab : a = b
      · subst hab
        rcases ih bs with h | h
        · left; simpa [lexLe] using h
        · right; simpa [lexLe] using h
      · rcases lt_or_gt_of_ne hab with h | h
        · left; simp [lexLe, hab, h]
        · right; simp [lexLe, Ne.symm hab, h]

theorem lexLe_trans :
    ∀ as bs cs : List Char, lexLe as bs = true → lexLe bs cs = true → lexLe as cs = true := by
  intro as
  induction as with
  | nil => intro bs cs _ _; rfl
  | cons a as ih =>
    intro bs cs h1 h2
    cases bs with
    | nil => simp [lexLe] at h1
    | cons b bs =>
      cases cs with
      | nil => simp [lexLe] at h2
      | cons c cs =>
        by_cases hab : a = b
        · subst hab
          by_cases hac : a = c
          · subst hac
            simp only [lexLe, if_pos rfl] at h1 h2 ⊢
            exact ih bs cs h1 h2
          · simp only [lexLe, if_pos rfl] at h1
            simpa [lexLe, hac] using h2
        · simp only [lexLe, if_neg hab, decide_eq_true_eq] at h1
          by_cases hbc : b = c
          · subst hbc
            simp [lexLe, hab, h1]
          · simp only [lexLe, if_neg hbc, decide_eq_true_eq] at h2
            have hac : a < c := lt_trans h1 h2
            have : a ≠ c := ne_of_lt hac
            simp [lexLe, this, hac]

instance : IsTotal HRow hevyDateDesc :=
  ⟨fun a b => (lexLe_total b.date.data a.date.data).imp id id⟩

instance : IsTrans HRow hevyDateDesc :=
  ⟨fun _ b _ h1 h2 => lexLe_trans _ b.date.data _ h2 h1⟩

instance : IsTotal PRRow prDesc := ⟨fun a b => le_total b.oneRM a.oneRM⟩

instance : IsTrans PRRow prDesc :=
  ⟨fun _ _ _ h1 h2 => le_trans h2 h1⟩

/-! ### Helper lemmas: dict operations, merge preservation -/

theorem dictLookup_insert_self (k : String) (v : GRow) :
    ∀ l : GDict, dictLookup k (dictInsert k v l) = some v := by
  intro l
  induction l with
  | nil => simp [dictInsert, dictLookup]
  | cons hd t ih =>
    obtain ⟨k₂, v₂⟩ := hd
    by_cases h : k₂ = k
    · simp [dictInsert, h, dictLookup]
    · simp [dictInsert, h, dictLookup, ih]

theorem dictLookup_insert_ne (d k : String) (v : GRow) (hne : d ≠ k) :
    ∀ l : GDict, dictLookup d (dictInsert k v l) = dictLookup d l := by
  intro l
  have hkd : k ≠ d := Ne.symm hne
  induction l with
  | nil => simp [dictInsert, dictLookup, hkd]
  | cons hd t ih =>
    obtain ⟨k₂, v₂⟩ := hd
    by_cases h : k₂ = k
    · subst h
      simp [dictInsert, dictLookup, hkd]
    · by_cases h₂ : k₂ = d
      · simp [dictInsert, h, dictLookup, h₂, hne]
      · simp [dictInsert, h, dictLookup, h₂, ih]

theorem preservesPopulated_refl (oldRow : List Cell) : preservesPopulated oldRow oldRow :=
  fun _ _ _ _ => rfl

theorem preservesPopulated_merge (oldRow r b : List Cell)
    (h : preservesPopulated oldRow r) : preservesPopulated oldRow (mergeRow r b) := by
  intro i hi ho hp
  have hir : i < r.length := by
    have := hi
    rw [mergeRow, List.length_zipWith] at this
    omega
  have hib : i < b.length := by
    have := hi
    rw [mergeRow, List.length_zipWith] at this
    omega
  have hz : (mergeRow r b).get ⟨i, hi⟩ = mergeCell (r.get ⟨i, hir⟩) (b.get ⟨i, hib⟩) := by
    simp [mergeRow, List.get_eq_getElem, List.getElem_zipWith]
  rw [hz]
  have hre : r.get ⟨i, hir⟩ = oldRow.get ⟨i, ho⟩ := h i hir ho hp
  rw [mergeCell, hre, if_pos hp]

theorem backfill_foldl_inv (d : String) (oldRow : GRow) :
    ∀ (B : List GRow) (acc : GDict),
      (∃ r, dictLookup d acc = some r ∧ preservesPopulated oldRow r) →
      ∃ r, dictLookup d (B.foldl backfillStep acc) = some r ∧ preservesPopulated oldRow r := by
  intro B
  induction B with
  | nil => intro acc h; exact h
  | cons b B ih =>
    intro acc h
    rw [List.foldl_cons]
    apply ih
    obtain ⟨r, hr, hpres⟩ := h
    by_cases hd : rowDate b = d
    · subst hd
      rw [backfillStep, hr]
      exact ⟨mergeRow r b, by rw [dictLookup_insert_self],
        preservesPopulated_merge oldRow r b hpres⟩
    · have hd₂ : d ≠ rowDate b := fun h => hd h.symm
      refine ⟨r, ?_, hpres⟩
      rw [backfillStep]
      cases hlb : dictLookup (rowDate b) acc with
      | some o => rw [dictLookup_insert_ne d _ _ hd₂, hr]
      | none => rw [dictLookup_insert_ne d _ _ hd₂, hr]

theorem force_foldl_of_absent (d : String) :
    ∀ (B : List GRow) (acc : GDict), (∀ b ∈ B, rowDate b ≠ d) →
      dictLookup d (B.foldl forceStep acc) = dictLookup d acc := by
  intro B
  induction B with
  | nil => intro acc _; rfl
  | cons b B ih =>
    intro acc h
    rw [List.foldl_cons, ih _ (fun x hx => h x (List.mem_cons_of_mem b hx)), forceStep,
      dictLookup_insert_ne _ _ _ (fun he => h b (List.mem_cons_self b B) he.symm)]

/-! ### Helper lemmas: hevy reconciliation -/

theorem hevySortDesc_perm (l : List HRow) : List.Perm (hevySortDesc l) l :=
  List.perm_insertionSort hevyDateDesc l

theorem hevySortDesc_sorted (l : List HRow) : List.Sorted hevyDateDesc (hevySortDesc l) :=
  List.sorted_insertionSort hevyDateDesc l

theorem hevySortDesc_of_sorted {l : List HRow} (h : List.Sorted hevyDateDesc l) :
    hevySortDesc l = l :=
  List.Sorted.insertionSort_eq h

/-- Every incoming record has a key match inside the result of a normal pass,
whether it was skipped (match in `S`) or kept (itself). -/
theorem hevyReconcileNormal_covers (S B : List HRow) {b : HRow} (hb : b ∈ B)
    (hne : ¬(S ++ B.filter fun x => ! S.any fun s => decide (hkey s = hkey x)).isEmpty) :
    ∃ r ∈ hevyReconcileNormal S B, hkey r = hkey b := by
  have hres : hevyReconcileNormal S B =
      hevySortDesc (S ++ B.filter fun x => ! S.any fun s => decide (hkey s = hkey x)) := by
    rw [hevyReconcileNormal, if_neg hne]
  cases hS : S.any fun s => decide (hkey s = hkey b) with
  | true =>
    obtain ⟨s, hs, hk⟩ := List.any_eq_true.mp hS
    refine ⟨s, ?_, of_decide_eq_true hk⟩
    rw [hres, (hevySortDesc_perm _).mem_iff]
    exact List.mem_append_left _ hs
  | false =>
    refine ⟨b, ?_, rfl⟩
    rw [hres, (hevySortDesc_perm _).mem_iff]
    exact List.mem_append_right _ (List.mem_filter.mpr ⟨hb, by rw [hS]; rfl⟩)

/-! ### Helper lemmas: the garmin date index -/

theorem garminDatesIdx_eq_some_map (g : GRow → String) :
    ∀ S : List GRow, (∀ r ∈ S, normalizeDateHist (rowDate r) = some (g r)) →
      garminDatesIdx S = some (S.map g) := by
  intro S
  induction S with
  | nil => intro _; rfl
  | cons r t ih =>
    intro h
    rw [garminDatesIdx, h r (List.mem_cons_self r t),
      ih (fun x hx => h x (List.mem_cons_of_mem r hx))]
    rfl

theorem garminDatesIdx_append (S₁ S₂ : List GRow) :
    garminDatesIdx (S₁ ++ S₂) =
      (garminDatesIdx S₁).bind (fun a => (garminDatesIdx S₂).map fun b => a ++ b) := by
  induction S₁ with
  | nil => cases hl : garminDatesIdx S₂ <;> simp [garminDatesIdx, hl]
  | cons r t ih =>
    rw [List.cons_append, garminDatesIdx, garminDatesIdx, ih]
    cases normalizeDateHist (rowDate r) with
    | none => rfl
    | some v =>
      simp only [Option.some_bind]
      cases garminDatesIdx t with
      | none => rfl
      | some w =>
        cases garminDatesIdx S₂ <;> rfl

/-! ### Helper lemmas: dict keys stay duplicate-free -/

theorem dictInsert_keys_mem (k : String) (v : GRow) :
    ∀ (l : GDict) (x : String), x ∈ (dictInsert k v l).map Prod.fst →
      x = k ∨ x ∈ l.map Prod.fst := by
  intro l
  induction l with
  | nil =>
    intro x hx
    rw [dictInsert, List.map_cons, List.map_nil] at hx
    exact Or.inl (List.mem_singleton.mp hx)
  | cons hd t ih =>
    obtain ⟨k₂, v₂⟩ := hd
    intro x hx
    rw [dictInsert] at hx
    by_cases h : k₂ = k
    · rw [if_pos h, List.map_cons, List.mem_cons] at hx
      rcases hx with hx | hx
      · exact Or.inl hx
      · exact Or.inr (List.mem_cons_of_mem _ hx)
    · rw [if_neg h, List.map_cons, List.mem_cons] at hx
      rcases hx with hx | hx
      · exact Or.inr (List.mem_cons.mpr (Or.inl hx))
      · rcases ih x hx with hx₂ | hx₂
        · exact Or.inl hx₂
        · exact Or.inr (List.mem_cons_of_mem _ hx₂)

theorem dictInsert_keys_nodup (k : String) (v : GRow) :
    ∀ l : GDict, (l.map Prod.fst).Nodup → ((dictInsert k v l).map Prod.fst).Nodup := by
  intro l
  induction l with
  | nil => intro _; rw [dictInsert]; simp
  | cons hd t ih =>
    obtain ⟨k₂, v₂⟩ := hd
    intro hnd
    rw [List.map_cons, List.nodup_cons] at hnd
    rw [dictInsert]
    by_cases h : k₂ = k
    · rw [if_pos h, List.map_cons, List.nodup_cons]
      exact ⟨h ▸ hnd.1, hnd.2⟩
    · rw [if_neg h, List.map_cons, List.nodup_cons]
      refine ⟨fun hmem => ?_, ih hnd.2⟩
      rcases dictInsert_keys_mem k v t k₂ hmem with he | hmem₂
      · exact h he
      · exact hnd.1 hmem₂

theorem garminIndex_foldlM_keys_nodup :
    ∀ (S : List GRow) (acc : GDict), (acc.map Prod.fst).Nodup →
      ∀ idx : GDict,
        (S.foldlM (fun acc r =>
          (normalizeDateHist (rowDate r)).map fun nd => dictInsert nd r acc) acc) = some idx →
        (idx.map Prod.fst).Nodup := by
  intro S
  induction S with
  | nil =>
    intro acc hacc idx h
    rw [List.foldlM_nil] at h
    exact (Option.some.inj h) ▸ hacc
  | cons r t ih =>
    intro acc hacc idx h
    rw [List.foldlM_cons] at h
    cases hnd : normalizeDateHist (rowDate r) with
    | none => rw [hnd] at h; exact absurd h (by simp)
    | some nd =>
      rw [hnd] at h
      exact ih (dictInsert nd r acc) (dictInsert_keys_nodup nd r acc hacc) idx h

theorem garminIndex_keys_nodup (S : List GRow) (idx : GDict)
    (h : garminIndex S = some idx) : (idx.map Prod.fst).Nodup :=
  garminIndex_foldlM_keys_nodup S [] (by simp) idx h

theorem force_foldl_keys_nodup :
    ∀ (B : List GRow) (acc : GDict), (acc.map Prod.fst).Nodup →
      (((B.foldl forceStep acc).map Prod.fst)).Nodup := by
  intro B
  induction B with
  | nil => intro acc hacc; exact hacc
  | cons b B ih =>
    intro acc hacc
    rw [List.foldl_cons]
    exact ih (forceStep acc b) (dictInsert_keys_nodup (rowDate b) b acc hacc)

/-! ### Helper lemmas: counting sets across muscle groups -/

theorem sum_map_add_nat {α : Type} (l : List α) (f g : α → ℕ) :
    (l.map fun x => f x + g x).sum = (l.map f).sum + (l.map g).sum := by
  induction l with
  | nil => rfl
  | cons a l ih => simp [ih]; omega

theorem sum_ite_eq_notMem (gs : List String) (g₀ : String) (h : g₀ ∉ gs) :
    (gs.map fun g => if g₀ = g then (1 : ℕ) else 0).sum = 0 := by
  induction gs with
  | nil => rfl
  | cons g gs ih =>
    have hne : g₀ ≠ g := fun he => h (he ▸ List.mem_cons_self g gs)
    have hnm : g₀ ∉ gs := fun hm => h (List.mem_cons_of_mem g hm)
    simp [hne, ih hnm]

theorem sum_ite_eq_mem (gs : List String) (g₀ : String) (hnd : gs.Nodup) (hm : g₀ ∈ gs) :
    (gs.map fun g => if g₀ = g then (1 : ℕ) else 0).sum = 1 := by
  induction gs with
  | nil => cases hm
  | cons g gs ih =>
    rcases List.mem_cons.mp hm with he | htail
    · subst he
      have hnm : g₀ ∉ gs := (List.nodup_cons.mp hnd).1
      simp [sum_ite_eq_notMem gs g₀ hnm]
    · have hne : g₀ ≠ g := by
        intro he
        subst he
        exact (List.nodup_cons.mp hnd).1 htail
      simp [hne, ih (List.nodup_cons.mp hnd).2 htail]

theorem countP_muscle_partition :
    ∀ (m : List MRow) (gs : List String), gs.Nodup →
      (∀ r ∈ m, ∀ g, r.muscle = some g → g ∈ gs) →
      (gs.map fun g => m.countP fun r => decide (r.muscle = some g)).sum =
        m.countP fun r => r.muscle.isSome := by
  intro m
  induction m with
  | nil => intro gs _ _; simp [List.countP_nil]
  | cons r m ih =>
    intro gs hnd hcov
    have hcov₂ : ∀ x ∈ m, ∀ g, x.muscle = some g → g ∈ gs :=
      fun x hx => hcov x (List.mem_cons_of_mem r hx)
    simp only [List.countP_cons]
    rw [sum_map_add_nat, ih gs hnd hcov₂]
    congr 1
    cases hmus : r.muscle with
    | none => simp [hmus]
    | some g₀ =>
      have hg : g₀ ∈ gs := hcov r (List.mem_cons_self r m) g₀ hmus
      simp only [hmus, decide_eq_true_eq, Option.isSome_some, if_true,
        Option.some.injEq]
      exact sum_ite_eq_mem gs g₀ hnd hg

/-! ### Helper lemma: shape of one `exercise_prs` line -/

theorem exercisePRs_mem_shape {m : List MRow} {p : PRRow} (hp : p ∈ exercisePRs m) :
    p.oneRM = round2 ((maxQ ((m.filter fun r =>
        decide (r.base.exercise = p.exercise)).map fun r => r.est1rm)).getD 0) ∧
    p.maxWeight = round2 ((maxQ ((m.filter fun r =>
        decide (r.base.exercise = p.exercise)).map fun r => r.base.weight)).getD 0) ∧
    p.maxReps = round2 ((maxQ ((m.filter fun r =>
        decide (r.base.exercise = p.exercise)).map fun r => r.base.reps)).getD 0) := by
  rw [exercisePRs, List.mem_insertionSort] at hp
  obtain ⟨e, _, he⟩ := List.mem_map.mp hp
  subst he
  exact ⟨rfl, rfl, rfl⟩

/-! ### The claims -/

/-- C1, counterexample.  The claim says every reconciliation run whose
persisted store exists but cannot be read aborts without writing the store
back.  The hevy history run refutes it: with an unreadable store and a
non-empty fetched batch the run completes and rewrites the file from the
batch alone, so the persisted file is not left as it was. -/
theorem c1_counterexample :
    hevyHistoryRun HevyFile.corrupt [rowOther] = HevyFile.ok [rowOther] ∧
      hevyHistoryRun HevyFile.corrupt [rowOther] ≠ HevyFile.corrupt := by
  constructor
  · decide
  · decide

/-- C1, amended.  The daily garmin health save does abort on an unreadable
store, leaving the file untouched; the hevy history importer instead warns and
continues with an empty in-memory store, so a non-empty batch rewrites the
persisted file with the sorted batch alone (discarding the unreadable
history). -/
theorem c1_read_failure_behavior :
    (∀ (newRow : GRow) (today : String),
        dailyHealthSave GarminFile.corrupt newRow today = GarminFile.corrupt) ∧
    (∀ B : List HRow, B ≠ [] →
        hevyHistoryRun HevyFile.corrupt B = HevyFile.ok (hevySortDesc B)) := by
  refine ⟨fun _ _ => rfl, fun B hB => ?_⟩
  cases B with
  | nil => exact absurd rfl hB
  | cons b B =>
    show HevyFile.ok (hevyReconcileNormal [] (b :: B)) = HevyFile.ok (hevySortDesc (b :: B))
    rw [hevyReconcileNormal]
    simp only [List.any_nil, Bool.not_false, List.filter_true, List.nil_append,
      List.isEmpty_cons]
    rfl

/-- C1, witness for `c1_read_failure_behavior` at a concrete batch. -/
theorem c1_read_failure_behavior_witness :
    [rowOther] ≠ ([] : List HRow) ∧
      hevyHistoryRun HevyFile.corrupt [rowOther] = HevyFile.ok (hevySortDesc [rowOther]) :=
  ⟨by decide, c1_read_failure_behavior.2 [rowOther] (by decide)⟩

/-- C2, counterexample.  The claim says that after a Normal/Force pass no two
records share a record key, and in particular at most one of two key-equal
incoming records survives.  Both Normal-mode reconcilers refute it: incoming
records are checked only against the loaded file's key set, never against each
other, so two key-equal hevy sets both survive an empty store's pass, and two
garmin rows for the same fetched day both survive theirs (the result's
normalized date keys are duplicated). -/
theorem c2_counterexample :
    ¬ ((hevyReconcileNormal [] [rowKeyDupA, rowKeyDupB]).map hkey).Nodup ∧
      (hevyReconcileNormal [] [rowKeyDupA, rowKeyDupB]).length = 2 ∧
      garminNormal [] [gFetchedOther, gFetchedOther] =
        some [gFetchedOther, gFetchedOther] ∧
      garminDatesIdx [gFetchedOther, gFetchedOther] =
        some ["2024-01-03", "2024-01-03"] ∧
      ¬ (["2024-01-03", "2024-01-03"] : List String).Nodup := by
  refine ⟨by decide, by decide, by decide, by decide, by decide⟩

/-- C2, amended.  After a Normal pass (hevy or garmin) no two records share a
record key only under the extra precondition that the incoming batch itself
carries no duplicate keys (the store's keys being unique as well; for the
garmin pass, with the source invariant that fetched day keys are canonical
ISO): Normal keeps the store's keys and adds only batch keys absent from the
store.  Hevy Force rebuilds from the batch alone, so its uniqueness equally
needs a duplicate-free batch, while the garmin Force pass is dict-indexed and
always yields duplicate-free date keys. -/
theorem c2_key_uniqueness :
    (∀ S B : List HRow, (S.map hkey).Nodup → (B.map hkey).Nodup →
        ((hevyReconcileNormal S B).map hkey).Nodup ∧
          ((hevyReconcileForce S B).map hkey).Nodup) ∧
    (∀ (S B R : List GRow) (ds dsR : List String),
        garminNormal S B = some R → garminDatesIdx S = some ds → ds.Nodup →
        (B.map rowDate).Nodup →
        (∀ b ∈ B, normalizeDateHist (rowDate b) = some (rowDate b)) →
        garminDatesIdx R = some dsR → dsR.Nodup) ∧
    (∀ (S B : List GRow) (res : GDict),
        garminForce S B = some res → (res.map Prod.fst).Nodup) := by
  refine ⟨?_, ?_, ?_⟩
  · intro S B hS hB
    constructor
    · rw [hevyReconcileNormal]
      split
      · exact hS
      · apply (((hevySortDesc_perm _).map hkey).nodup_iff).mpr
        rw [List.map_append]
        refine List.nodup_append.mpr ⟨hS, ?_, ?_⟩
        · exact ((List.filter_sublist B).map hkey).nodup hB
        · intro k hkS hkKeep
          obtain ⟨x, hxKeep, hxk⟩ := List.mem_map.mp hkKeep
          obtain ⟨hxB, hpx⟩ := List.mem_filter.mp hxKeep
          obtain ⟨s, hsS, hsk⟩ := List.mem_map.mp hkS
          have : S.any (fun s => decide (hkey s = hkey x)) = false := by
            cases h : S.any fun s => decide (hkey s = hkey x)
            · rfl
            · rw [h] at hpx; exact absurd hpx (by decide)
          have := List.any_eq_false.mp this s hsS
          exact this (decide_eq_true (hsk.trans hxk.symm))
    · rw [hevyReconcileForce]
      split
      · exact hS
      · exact (((hevySortDesc_perm _).map hkey).nodup_iff).mpr hB
  · intro S B R ds dsR hrun hds hdsnd hBnd hcanon hRds
    rw [garminNormal, hds] at hrun
    have hR : S ++ (B.filter fun b => !(decide (rowDate b ∈ ds))) = R :=
      Option.some.inj hrun
    have hkeep : garminDatesIdx (B.filter fun b => !(decide (rowDate b ∈ ds))) =
        some ((B.filter fun b => !(decide (rowDate b ∈ ds))).map rowDate) :=
      garminDatesIdx_eq_some_map rowDate _
        (fun r hr => hcanon r (List.mem_filter.mp hr).1)
    have hcomputed : garminDatesIdx R =
        some (ds ++ (B.filter fun b => !(decide (rowDate b ∈ ds))).map rowDate) := by
      rw [← hR, garminDatesIdx_append, hds, hkeep]
      rfl
    have hdsR : dsR = ds ++ (B.filter fun b => !(decide (rowDate b ∈ ds))).map rowDate :=
      Option.some.inj (hRds.symm.trans hcomputed)
    rw [hdsR]
    refine List.nodup_append.mpr ⟨hdsnd, ?_, ?_⟩
    · exact ((List.filter_sublist B).map rowDate).nodup hBnd
    · intro a haDs haKeep
      obtain ⟨b, hbKeep, hba⟩ := List.mem_map.mp haKeep
      have hnotin := (List.mem_filter.mp hbKeep).2
      rw [Bool.not_eq_eq_eq_not, Bool.not_true] at hnotin
      exact (of_decide_eq_false hnotin) (hba ▸ haDs)
  · intro S B res hres
    rw [garminForce] at hres
    cases hgi : garminIndex S with
    | none => rw [hgi] at hres; exact absurd hres (by simp)
    | some idx =>
      rw [hgi] at hres
      have hres2 : B.foldl forceStep idx = res := Option.some.inj hres
      rw [← hres2]
      exact force_foldl_keys_nodup B idx (garminIndex_keys_nodup S idx hgi)

/-- C2, witness for `c2_key_uniqueness` at concrete stores and batches for
all three reconcilers. -/
theorem c2_key_uniqueness_witness :
    ([rowKeyDupA].map hkey).Nodup ∧ ([rowOther].map hkey).Nodup ∧
      ((hevyReconcileNormal [rowKeyDupA] [rowOther]).map hkey).Nodup ∧
      ((hevyReconcileForce [rowKeyDupA] [rowOther]).map hkey).Nodup ∧
      garminNormal [gStoredRow] [gFetchedOther] = some [gStoredRow, gFetchedOther] ∧
      garminDatesIdx [gStoredRow, gFetchedOther] =
        some ["2024-01-01", "2024-01-03"] ∧
      (["2024-01-01", "2024-01-03"] : List String).Nodup ∧
      garminForce [gStoredRow] [gFetchedOther] =
        some [("2024-01-01", gStoredRow), ("2024-01-03", gFetchedOther)] ∧
      (([("2024-01-01", gStoredRow), ("2024-01-03", gFetchedOther)] : GDict).map
        Prod.fst).Nodup :=
  ⟨by decide, by decide,
    (c2_key_uniqueness.1 [rowKeyDupA] [rowOther] (by decide) (by decide)).1,
    (c2_key_uniqueness.1 [rowKeyDupA] [rowOther] (by decide) (by decide)).2,
    by decide, by decide,
    c2_key_uniqueness.2.1 [gStoredRow] [gFetchedOther] [gStoredRow, gFetchedOther]
      ["2024-01-01"] ["2024-01-01", "2024-01-03"]
      (by decide) (by decide) (by decide) (by decide) (by decide) (by decide),
    by decide,
    c2_key_uniqueness.2.2 [gStoredRow] [gFetchedOther]
      [("2024-01-01", gStoredRow), ("2024-01-03", gFetchedOther)] (by decide)⟩

/-- C3, confirmed.  In Backfill mode, for a record key present in both the
loaded store index and the batch, every populated field of the stored record
keeps its stored value in the reconciled dict regardless of the incoming
values; at the single-merge level a populated field keeps the old value and
only an empty/absent field takes the incoming one. -/
theorem c3_backfill_never_regresses :
    (∀ oldC newC : Cell,
        (populatedCell oldC = true → mergeCell oldC newC = oldC) ∧
        (populatedCell oldC = false → mergeCell oldC newC = newC)) ∧
    (∀ (S B : List GRow) (idx res : GDict) (d : String) (oldRow resRow : GRow),
        garminIndex S = some idx → garminBackfill S B = some res →
        dictLookup d idx = some oldRow → dictLookup d res = some resRow →
        preservesPopulated oldRow resRow) := by
  constructor
  · intro oldC newC
    constructor
    · intro h
      rw [mergeCell, if_pos h]
    · intro h
      rw [mergeCell, if_neg]
      rw [h]
      exact Bool.false_ne_true
  · intro S B idx res d oldRow resRow hidx hres hlookIdx hlookRes
    rw [garminBackfill, hidx] at hres
    have hres2 : B.foldl backfillStep idx = res := Option.some.inj hres
    obtain ⟨r, hr, hpres⟩ :=
      backfill_foldl_inv d oldRow B idx ⟨oldRow, hlookIdx, preservesPopulated_refl oldRow⟩
    rw [← hres2, hr, Option.some.injEq] at hlookRes
    exact hlookRes ▸ hpres

/-- C3, witness for `c3_backfill_never_regresses` at a concrete store, batch
and populated field (index 1, the stored weight `"150"`). -/
theorem c3_backfill_never_regresses_witness :
    garminIndex [gStoredRow] = some [("2024-01-01", gStoredRow)] ∧
      garminBackfill [gStoredRow] [gFetchedRow] =
        some [("2024-01-01",
          [some "2024-01-01", some "150", some "20", some "7"])] ∧
      populatedCell (some "150") = true ∧
      mergeCell (some "150") (some "999") = some "150" ∧
      populatedCell (none : Cell) = false ∧
      mergeCell (none : Cell) (some "20") = some "20" ∧
      preservesPopulated gStoredRow
        [some "2024-01-01", some "150", some "20", some "7"] :=
  ⟨by decide, by decide, by decide,
    (c3_backfill_never_regresses.1 (some "150") (some "999")).1 (by decide),
    by decide,
    (c3_backfill_never_regresses.1 (none : Cell) (some "20")).2 (by decide),
    c3_backfill_never_regresses.2 [gStoredRow] [gFetchedRow]
      [("2024-01-01", gStoredRow)]
      [("2024-01-01", [some "2024-01-01", some "150", some "20", some "7"])]
      "2024-01-01" gStoredRow
      [some "2024-01-01", some "150", some "20", some "7"]
      (by decide) (by decide) (by decide) (by decide)⟩

/-- C4, counterexample.  The claim says Force mode keeps every existing record
whose key is absent from the batch.  The hevy Force pass refutes it: the
loaded rows and key index are cleared up front, so the rewrite contains only
the batch and the unmatched stored row is discarded. -/
theorem c4_counterexample :
    hevyReconcileForce [rowKeyDupA] [rowOther] = [rowOther] ∧
      rowKeyDupA ∉ hevyReconcileForce [rowKeyDupA] [rowOther] := by
  constructor
  · decide
  · decide

/-- C4, amended.  The garmin daily Force pass behaves as claimed: a stored key
absent from the batch keeps its loaded row, and a key fetched in the batch
ends up with exactly the batch's row (the last one, under in-batch
duplicates).  The hevy Force pass instead rebuilds the store from the batch
alone whenever the batch is non-empty, discarding unmatched history. -/
theorem c4_force_semantics :
    (∀ (S B : List GRow) (idx res : GDict) (d : String),
        garminIndex S = some idx → garminForce S B = some res →
        (∀ b ∈ B, rowDate b ≠ d) → dictLookup d res = dictLookup d idx) ∧
    (∀ (S : List GRow) (B : List GRow) (res : GDict) (B₁ B₂ : List GRow) (b : GRow),
        garminForce S B = some res → B = B₁ ++ b :: B₂ →
        (∀ b₂ ∈ B₂, rowDate b₂ ≠ rowDate b) → dictLookup (rowDate b) res = some b) ∧
    (∀ S B : List HRow, B ≠ [] → hevyReconcileForce S B = hevySortDesc B) := by
  refine ⟨?_, ?_, ?_⟩
  · intro S B idx res d hidx hres habsent
    rw [garminForce, hidx] at hres
    have hres2 : B.foldl forceStep idx = res := Option.some.inj hres
    rw [← hres2]
    exact force_foldl_of_absent d B idx habsent
  · intro S B res B₁ B₂ b hres hsplit habsent
    rw [garminForce] at hres
    cases hgi : garminIndex S with
    | none => rw [hgi] at hres; exact absurd hres (by simp)
    | some idx =>
      rw [hgi] at hres
      have hres2 : B.foldl forceStep idx = res := Option.some.inj hres
      rw [← hres2, hsplit, List.foldl_append, List.foldl_cons]
      rw [force_foldl_of_absent (rowDate b) B₂ _ habsent, forceStep,
        dictLookup_insert_self]
  · intro S B hB
    rw [hevyReconcileForce, if_neg]
    simp [hB]

/-- C4, witness for `c4_force_semantics` at concrete stores and batches. -/
theorem c4_force_semantics_witness :
    garminIndex [gStoredRow] = some [("2024-01-01", gStoredRow)] ∧
      garminForce [gStoredRow] [gFetchedOther] =
        some [("2024-01-01", gStoredRow), ("2024-01-03", gFetchedOther)] ∧
      dictLookup "2024-01-01"
          [("2024-01-01", gStoredRow), ("2024-01-03", gFetchedOther)] =
        dictLookup "2024-01-01" [("2024-01-01", gStoredRow)] ∧
      dictLookup "2024-01-03"
          [("2024-01-01", gStoredRow), ("2024-01-03", gFetchedOther)] =
        some gFetchedOther ∧
      hevyReconcileForce [rowKeyDupA] [rowOther] = hevySortDesc [rowOther] :=
  ⟨by decide, by decide,
    (c4_force_semantics.1 [gStoredRow] [gFetchedOther]
      [("2024-01-01", gStoredRow)]
      [("2024-01-01", gStoredRow), ("2024-01-03", gFetchedOther)]
      "2024-01-01" (by decide) (by decide) (by decide)),
    (c4_force_semantics.2.1 [gStoredRow] [gFetchedOther]
      [("2024-01-01", gStoredRow), ("2024-01-03", gFetchedOther)]
      [] [] gFetchedOther (by decide) (by decide) (by decide)),
    c4_force_semantics.2.2 [rowKeyDupA] [rowOther] (by decide)⟩

/-- Unfolded form of the hevy Normal pass. -/
theorem hevyReconcileNormal_eq (S B : List HRow) :
    hevyReconcileNormal S B =
      if (S ++ B.filter fun b => ! S.any fun s => decide (hkey s = hkey b)).isEmpty then S
      else hevySortDesc (S ++ B.filter fun b => ! S.any fun s => decide (hkey s = hkey b)) :=
  rfl

/-- C5, confirmed.  Normal-mode reconciliation is idempotent: re-running the
hevy pass with the same batch changes nothing, unconditionally; re-running the
garmin daily pass with the same batch changes nothing, under the source's
standing invariant that fetched day keys are canonical ISO strings (they are
produced by `date.isoformat()`, and `normalize_date` returns slash-free
strings unchanged). -/
theorem c5_normal_idempotent :
    (∀ S B : List HRow,
        hevyReconcileNormal (hevyReconcileNormal S B) B = hevyReconcileNormal S B) ∧
    (∀ (S B R : List GRow), garminNormal S B = some R →
        (∀ b ∈ B, normalizeDateHist (rowDate b) = some (rowDate b)) →
        garminNormal R B = some R) := by
  constructor
  · intro S B
    by_cases h : (S ++ B.filter fun b => ! S.any fun s => decide (hkey s = hkey b)).isEmpty
    · have happ := List.append_eq_nil.mp (List.isEmpty_iff.mp h)
      obtain ⟨hS, hfil⟩ := happ
      subst hS
      have hB : B = [] := by
        have hall := List.filter_eq_nil_iff.mp hfil
        cases B with
        | nil => rfl
        | cons b B => exact absurd rfl (hall b (List.mem_cons_self b B))
      subst hB
      rfl
    · have hcov : ∀ b ∈ B, ∃ r ∈ hevyReconcileNormal S B, hkey r = hkey b :=
        fun b hb => hevyReconcileNormal_covers S B hb h
      have hfil2 : (B.filter fun b =>
          ! (hevyReconcileNormal S B).any fun s => decide (hkey s = hkey b)) = [] := by
        apply List.filter_eq_nil_iff.mpr
        intro b hb
        obtain ⟨r, hr, hk⟩ := hcov b hb
        have hany : ((hevyReconcileNormal S B).any fun s => decide (hkey s = hkey b)) = true :=
          List.any_eq_true.mpr ⟨r, hr, decide_eq_true hk⟩
        rw [hany]
        decide
      have hR : hevyReconcileNormal S B =
          hevySortDesc (S ++ B.filter fun b => ! S.any fun s => decide (hkey s = hkey b)) := by
        rw [hevyReconcileNormal_eq, if_neg h]
      have hRne : (hevyReconcileNormal S B).isEmpty = false := by
        rw [hR]
        have hlen : (hevySortDesc (S ++ B.filter fun b =>
            ! S.any fun s => decide (hkey s = hkey b))).length =
            (S ++ B.filter fun b => ! S.any fun s => decide (hkey s = hkey b)).length :=
          List.length_insertionSort _ _
        cases he : hevySortDesc (S ++ B.filter fun b =>
            ! S.any fun s => decide (hkey s = hkey b)) with
        | nil =>
          rw [he] at hlen
          exact absurd (List.isEmpty_iff.mpr (List.length_eq_zero.mp hlen.symm)) h
        | cons x xs => rfl
      rw [hevyReconcileNormal_eq (hevyReconcileNormal S B) B, hfil2, List.append_nil, hRne,
        if_neg Bool.false_ne_true]
      conv_lhs => rw [hR]
      rw [hevySortDesc_of_sorted (hevySortDesc_sorted _), ← hR]
  · intro S B R hrun hcanon
    rw [garminNormal] at hrun
    cases hds : garminDatesIdx S with
    | none => rw [hds] at hrun; exact absurd hrun (by simp)
    | some ds =>
      rw [hds] at hrun
      have hR : S ++ (B.filter fun b => !(decide (rowDate b ∈ ds))) = R :=
        Option.some.inj hrun
      have hkeepDates : garminDatesIdx (B.filter fun b => !(decide (rowDate b ∈ ds))) =
          some ((B.filter fun b => !(decide (rowDate b ∈ ds))).map rowDate) := by
        apply garminDatesIdx_eq_some_map
        intro r hr
        exact hcanon r (List.mem_filter.mp hr).1
      have hRdates : garminDatesIdx R =
          some (ds ++ (B.filter fun b => !(decide (rowDate b ∈ ds))).map rowDate) := by
        rw [← hR, garminDatesIdx_append, hds, hkeepDates]
        rfl
      rw [garminNormal, hRdates]
      have hfil2 : (B.filter fun b =>
          !(decide (rowDate b ∈ ds ++
            (B.filter fun x => !(decide (rowDate x ∈ ds))).map rowDate))) = [] := by
        apply List.filter_eq_nil_iff.mpr
        intro b hb
        have hmem : rowDate b ∈ ds ++
            (B.filter fun x => !(decide (rowDate x ∈ ds))).map rowDate := by
          cases hin : decide (rowDate b ∈ ds) with
          | true => exact List.mem_append_left _ (of_decide_eq_true hin)
          | false =>
            refine List.mem_append_right _ (List.mem_map.mpr ⟨b, ?_, rfl⟩)
            exact List.mem_filter.mpr ⟨hb, by rw [hin]; rfl⟩
        simp [hmem]
      exact congrArg some (by dsimp only; rw [hfil2]; exact List.append_nil R)

/-- C5, witness for the garmin half of `c5_normal_idempotent` at a concrete
store and batch of canonical ISO dates. -/
theorem c5_normal_idempotent_witness :
    garminNormal [gStoredRow] [gFetchedOther] = some [gStoredRow, gFetchedOther] ∧
      (∀ b ∈ [gFetchedOther], normalizeDateHist (rowDate b) = some (rowDate b)) ∧
      garminNormal [gStoredRow, gFetchedOther] [gFetchedOther] =
        some [gStoredRow, gFetchedOther] :=
  ⟨by decide, by decide,
    c5_normal_idempotent.2 [gStoredRow] [gFetchedOther] [gStoredRow, gFetchedOther]
      (by decide) (by decide)⟩

/-- C6, counterexample.  The claim says `trend_pct = -2.01` yields
`REGRESSING`.  In the code the thresholds are applied to `Trend_Pct` only
after `.round(1)`: a concrete store whose raw trend percentage is exactly
−2.01 (history max 1RM 100, recent max 97.99) is classified `PLATEAU`,
because −2.01 rounds to −2.0. -/
theorem c6_counterexample :
    calculateOneRepMax 75 10 = 100 ∧
      calculateOneRepMax (734925 / 10000) 10 = 9799 / 100 ∧
      rawTrendPct (9799 / 100) 100 = -201 / 100 ∧
      trendOfExercise [setHistory, setRecent] 5 0 "Bench Press" =
        some TrendStatus.plateau := by
  refine ⟨by rw [calculateOneRepMax]; norm_num, by rw [calculateOneRepMax]; norm_num,
    by rw [rawTrendPct]; norm_num, ?_⟩
  have hfil : ([setHistory, setRecent].filter fun s => decide ((0:ℤ) ≤ s.day)) =
      [setHistory, setRecent] := rfl
  have hfil2 : ([setHistory, setRecent].filter fun s => decide ((5:ℤ) ≤ s.day)) =
      [setRecent] := rfl
  have hr : groupMax1RM [setRecent] "Bench Press" = some (9799 / 100) := by
    have hgf : ([setRecent].filter fun s => decide (s.exercise = "Bench Press")) =
        [setRecent] := rfl
    rw [groupMax1RM, hgf]
    simp only [List.map, maxQ, setRecent]
    norm_num [calculateOneRepMax]
  have hh : groupMax1RM [setHistory, setRecent] "Bench Press" = some 100 := by
    have hgf : ([setHistory, setRecent].filter fun s =>
        decide (s.exercise = "Bench Press")) = [setHistory, setRecent] := rfl
    rw [groupMax1RM, hgf]
    simp only [List.map, maxQ, setHistory, setRecent, List.foldl]
    norm_num [calculateOneRepMax, max_def]
  rw [trendOfExercise]
  simp only [hfil, hfil2, hr, hh]
  have hraw : rawTrendPct (9799 / 100) 100 = -201 / 100 := by
    rw [rawTrendPct]; norm_num
  have hrd : round1 (-201 / 100) = -2 := by
    rw [round1, roundHalfEven]
    have hf : (⌊(-201 / 100 * 10 : ℚ)⌋ : ℤ) = -21 := by
      rw [Int.floor_eq_iff]
      constructor <;> norm_num
    rw [hf]
    norm_num
  rw [hraw, hrd]
  rw [classifyTrend]
  norm_num

/-- C6, amended.  The classification lambda itself matches the claimed
thresholds exactly (`PLATEAU` iff `-2 ≤ x ≤ 2`, `REGRESSING` iff `x < -2`,
`PROGRESSING` iff `2 < x`), but the pipeline feeds it the trend percentage
rounded to one decimal, so raw 2.01 and −2.01 both land on `PLATEAU`;
`trend_pct = 2.0` yields `PLATEAU` and the claimed labels reappear one band
further out, at raw ±2.1. -/
theorem c6_trend_classification :
    (∀ x : ℚ,
        (classifyTrend x = TrendStatus.plateau ↔ -2 ≤ x ∧ x ≤ 2) ∧
        (classifyTrend x = TrendStatus.regressing ↔ x < -2) ∧
        (classifyTrend x = TrendStatus.progressing ↔ 2 < x)) ∧
      classifyTrend (round1 2) = TrendStatus.plateau ∧
      classifyTrend (round1 (201 / 100)) = TrendStatus.plateau ∧
      classifyTrend (round1 (-201 / 100)) = TrendStatus.plateau ∧
      classifyTrend (round1 (21 / 10)) = TrendStatus.progressing ∧
      classifyTrend (round1 (-21 / 10)) = TrendStatus.regressing := by
  have hiff : ∀ x : ℚ,
      (classifyTrend x = TrendStatus.plateau ↔ -2 ≤ x ∧ x ≤ 2) ∧
      (classifyTrend x = TrendStatus.regressing ↔ x < -2) ∧
      (classifyTrend x = TrendStatus.progressing ↔ 2 < x) := by
    intro x
    rw [classifyTrend]
    by_cases h1 : -2 ≤ x ∧ x ≤ 2
    · rw [if_pos h1]
      refine ⟨⟨fun _ => h1, fun _ => rfl⟩, ⟨fun he => ?_, fun hlt => ?_⟩,
        ⟨fun he => ?_, fun hlt => ?_⟩⟩
      · exact absurd he (by decide)
      · exact absurd hlt (by push_neg; exact h1.1)
      · exact absurd he (by decide)
      · exact absurd hlt (by push_neg; exact h1.2)
    · rw [if_neg h1]
      by_cases h2 : x < -2
      · rw [if_pos h2]
        exact ⟨⟨fun he => absurd he (by decide), fun hp => absurd hp.1 (by
          push_neg; exact h2)⟩, ⟨fun _ => h2, fun _ => rfl⟩,
          ⟨fun he => absurd he (by decide), fun hgt => absurd hgt (by linarith)⟩⟩
      · rw [if_neg h2]
        have hgt : 2 < x := by
          push_neg at h1 h2
          rcases lt_or_le 2 x with h | h
          · exact h
          · exact absurd (h1 h2) (by push_neg; exact h)
        refine ⟨⟨fun he => absurd he (by decide), fun hp => absurd hgt (by
          push_neg; exact hp.2)⟩, ⟨fun he => absurd he (by decide),
          fun hlt => absurd hlt (by push_neg; linarith)⟩, ⟨fun _ => hgt, fun _ => rfl⟩⟩
  refine ⟨hiff, ?_, ?_, ?_, ?_, ?_⟩
  · have hrd : round1 2 = 2 := by
      rw [round1, roundHalfEven]
      have hf : (⌊(2 * 10 : ℚ)⌋ : ℤ) = 20 := by
        rw [Int.floor_eq_iff]
        constructor <;> norm_num
      rw [hf]
      norm_num
    rw [hrd, classifyTrend]
    norm_num
  · have hrd : round1 (201 / 100) = 2 := by
      rw [round1, roundHalfEven]
      have hf : (⌊(201 / 100 * 10 : ℚ)⌋ : ℤ) = 20 := by
        rw [Int.floor_eq_iff]
        constructor <;> norm_num
      rw [hf]
      norm_num
    rw [hrd, classifyTrend]
    norm_num
  · have hrd : round1 (-201 / 100) = -2 := by
      rw [round1, roundHalfEven]
      have hf : (⌊(-201 / 100 * 10 : ℚ)⌋ : ℤ) = -21 := by
        rw [Int.floor_eq_iff]
        constructor <;> norm_num
      rw [hf]
      norm_num
    rw [hrd, classifyTrend]
    norm_num
  · have hrd : round1 (21 / 10) = 21 / 10 := by
      rw [round1, roundHalfEven]
      have hf : (⌊(21 / 10 * 10 : ℚ)⌋ : ℤ) = 21 := by
        rw [Int.floor_eq_iff]
        constructor <;> norm_num
      rw [hf]
      norm_num
    rw [hrd, classifyTrend]
    norm_num
  · have hrd : round1 (-21 / 10) = -21 / 10 := by
      rw [round1, roundHalfEven]
      have hf : (⌊(-21 / 10 * 10 : ℚ)⌋ : ℤ) = -21 := by
        rw [Int.floor_eq_iff]
        constructor <;> norm_num
      rw [hf]
      norm_num
    rw [hrd, classifyTrend]
    norm_num

/-- C7, counterexample.  The claim says a windowed set whose exercise has no
catalog match is still counted under an "unknown/other" muscle group.  In the
code the left merge leaves its muscle group NaN and `groupby` (with its
default `dropna=True`) then drops it: one in-window set, yet the muscle-group
summary is empty and its set total is 0, not 1. -/
theorem c7_counterexample :
    ((aggregateTrainingData [statRowUnmatched] catalogSample 0).1.map
        fun r => summarySetCount r.muscleGroupSummary) = some 0 ∧
      (mergeLeft [statRowUnmatched] [catalogBench]).length = 1 := by
  constructor
  · decide
  · decide

/-- C7, amended.  Sets with no exact-after-trimming catalog match get a null
muscle group from the left merge and are then dropped by the group-by, so the
muscle-group summary counts exactly the matched sets: its set total equals the
number of merged rows carrying a (non-null) muscle group, for every input. -/
theorem c7_unmatched_sets_dropped :
    ∀ m : List MRow,
      summarySetCount (muscleSummary m) =
        (m.filter fun r => r.muscle.isSome).length := by
  intro m
  rw [muscleSummary, summarySetCount, List.map_map]
  have hshape : ((muscleKeys m).map ((fun e => e.2.2.2) ∘ fun g =>
      (g, round2 ((maxQ ((m.filter fun r => decide (r.muscle = some g)).map
          fun r => r.est1rm)).getD 0),
        round2 (((m.filter fun r => decide (r.muscle = some g)).map
          fun r => r.volume).sum),
        (m.filter fun r => decide (r.muscle = some g)).length))) =
      (muscleKeys m).map fun g => (m.filter fun r => decide (r.muscle = some g)).length :=
    List.map_congr_left fun g _ => rfl
  rw [hshape]
  have hnd : (muscleKeys m).Nodup := by
    rw [muscleKeys]
    exact ((List.perm_insertionSort strAsc _).nodup_iff).mpr (List.nodup_dedup _)
  have hcov : ∀ r ∈ m, ∀ g, r.muscle = some g → g ∈ muscleKeys m := by
    intro r hr g hg
    rw [muscleKeys, List.mem_insertionSort, List.mem_dedup]
    exact List.mem_filterMap.mpr ⟨r, hr, hg⟩
  have hpart := countP_muscle_partition m (muscleKeys m) hnd hcov
  simp only [List.countP_eq_length_filter] at hpart
  exact hpart

/-- C8, counterexample.  The claim says each personal-record line reports the
weight and reps of the single set achieving the exercise's max estimated 1RM.
With a heavy single (100 lbs × 1, 1RM 103.33) and a light high-rep set
(50 lbs × 20, 1RM 83.33), the argmax set has 1 rep, yet the reported line
carries the independent column maxima: weight 100 together with reps 20. -/
theorem c8_counterexample :
    exercisePRs (mergeLeft [statRowHeavySingle, statRowLightMany] []) = [prReported] ∧
      calculateOneRepMax 50 20 < calculateOneRepMax 100 1 ∧
      prReported.maxReps = 20 ∧ statRowHeavySingle.reps = 1 := by
  refine ⟨?_, ?_, by decide, by decide⟩
  · have hm : mergeLeft [statRowHeavySingle, statRowLightMany] [] =
        [⟨statRowHeavySingle, calculateOneRepMax 100 1, 100 * 1, none, none⟩,
         ⟨statRowLightMany, calculateOneRepMax 50 20, 50 * 20, none, none⟩] := rfl
    rw [hm, exercisePRs]
    have hkeys : exerciseKeys
        [⟨statRowHeavySingle, calculateOneRepMax 100 1, 100 * 1, none, none⟩,
         ⟨statRowLightMany, calculateOneRepMax 50 20, 50 * 20, none, none⟩] =
        ["Bench Press"] := rfl
    rw [hkeys]
    simp only [List.map, statRowHeavySingle, statRowLightMany, maxQ, List.foldl,
      Option.getD]
    have e1 : calculateOneRepMax 100 1 = 310 / 3 := by rw [calculateOneRepMax]; norm_num
    have e2 : calculateOneRepMax 50 20 = 250 / 3 := by rw [calculateOneRepMax]; norm_num
    rw [e1, e2]
    have hmax1 : max (310 / 3 : ℚ) (250 / 3) = 310 / 3 := by
      rw [max_eq_left]; norm_num
    have hmax2 : max (100 : ℚ) 50 = 100 := by rw [max_eq_left]; norm_num
    have hmax3 : max (1 : ℚ) 20 = 20 := by rw [max_eq_right]; norm_num
    rw [hmax1, hmax2, hmax3]
    have hr1 : round2 (310 / 3) = 10333 / 100 := by
      rw [round2, roundHalfEven]
      have hf : (⌊(310 / 3 * 100 : ℚ)⌋ : ℤ) = 10333 := by
        rw [Int.floor_eq_iff]
        constructor <;> norm_num
      rw [hf]
      norm_num
    have hr2 : round2 100 = 100 := by
      rw [round2, roundHalfEven]
      have hf : (⌊(100 * 100 : ℚ)⌋ : ℤ) = 10000 := by
        rw [Int.floor_eq_iff]
        constructor <;> norm_num
      rw [hf]
      norm_num
    have hr3 : round2 20 = 20 := by
      rw [round2, roundHalfEven]
      have hf : (⌊(20 * 100 : ℚ)⌋ : ℤ) = 2000 := by
        rw [Int.floor_eq_iff]
        constructor <;> norm_num
      rw [hf]
      norm_num
    rw [hr1, hr2, hr3]
    rfl
  · rw [calculateOneRepMax, calculateOneRepMax]
    norm_num

/-- C8, amended.  The personal-record table is genuinely ranked descending by
estimated 1RM, but each line's weight and reps are the *independent* column
maxima of the exercise's sets (separate `'max'` aggregations), not the pair of
the argmax-1RM set. -/
theorem c8_pr_columns_independent :
    (∀ m : List MRow, List.Sorted prDesc (exercisePRs m)) ∧
    (∀ (m : List MRow) (i : ℕ) (hi : i < (exercisePRs m).length),
        ((exercisePRs m).get ⟨i, hi⟩).oneRM =
          round2 ((maxQ ((m.filter fun r => decide (r.base.exercise =
            ((exercisePRs m).get ⟨i, hi⟩).exercise)).map fun r => r.est1rm)).getD 0) ∧
        ((exercisePRs m).get ⟨i, hi⟩).maxWeight =
          round2 ((maxQ ((m.filter fun r => decide (r.base.exercise =
            ((exercisePRs m).get ⟨i, hi⟩).exercise)).map fun r => r.base.weight)).getD 0) ∧
        ((exercisePRs m).get ⟨i, hi⟩).maxReps =
          round2 ((maxQ ((m.filter fun r => decide (r.base.exercise =
            ((exercisePRs m).get ⟨i, hi⟩).exercise)).map fun r => r.base.reps)).getD 0)) :=
  ⟨fun _ => List.sorted_insertionSort prDesc _,
    fun m i hi => exercisePRs_mem_shape (List.get_mem (exercisePRs m) i hi)⟩

/-- C8, witness for `c8_pr_columns_independent` at a one-set store. -/
theorem c8_pr_columns_independent_witness :
    0 < (exercisePRs (mergeLeft [⟨PyDate.ts 10, "Mystery Move", 0, 0⟩] [])).length ∧
      (((exercisePRs (mergeLeft [⟨PyDate.ts 10, "Mystery Move", 0, 0⟩] [])).get
          ⟨0, by decide⟩).oneRM =
        round2 ((maxQ (((mergeLeft [⟨PyDate.ts 10, "Mystery Move", 0, 0⟩] []).filter
          fun r => decide (r.base.exercise =
            ((exercisePRs (mergeLeft [⟨PyDate.ts 10, "Mystery Move", 0, 0⟩] [])).get
              ⟨0, by decide⟩).exercise)).map fun r => r.est1rm)).getD 0) ∧
      ((exercisePRs (mergeLeft [⟨PyDate.ts 10, "Mystery Move", 0, 0⟩] [])).get
          ⟨0, by decide⟩).maxWeight =
        round2 ((maxQ (((mergeLeft [⟨PyDate.ts 10, "Mystery Move", 0, 0⟩] []).filter
          fun r => decide (r.base.exercise =
            ((exercisePRs (mergeLeft [⟨PyDate.ts 10, "Mystery Move", 0, 0⟩] [])).get
              ⟨0, by decide⟩).exercise)).map fun r => r.base.weight)).getD 0) ∧
      ((exercisePRs (mergeLeft [⟨PyDate.ts 10, "Mystery Move", 0, 0⟩] [])).get
          ⟨0, by decide⟩).maxReps =
        round2 ((maxQ (((mergeLeft [⟨PyDate.ts 10, "Mystery Move", 0, 0⟩] []).filter
          fun r => decide (r.base.exercise =
            ((exercisePRs (mergeLeft [⟨PyDate.ts 10, "Mystery Move", 0, 0⟩] [])).get
              ⟨0, by decide⟩).exercise)).map fun r => r.base.reps)).getD 0)) :=
  ⟨by decide,
    c8_pr_columns_independent.2 (mergeLeft [⟨PyDate.ts 10, "Mystery Move", 0, 0⟩] [])
      0 (by decide)⟩

/-- C9, counterexample.  The claim says the normalizer is total: every input
returns without raising, unrecognized inputs coming back unchanged.  The
`history_garmin_import.py` variant has no exception handler: on a
three-part slash input with non-numeric components, `int()` raises a
`ValueError` (modelled as `none`) instead of returning the input. -/
theorem c9_counterexample : normalizeDateHist "a/b/c" = none := by decide

/-- C9, amended.  Both variants convert ISO and US-slash dates to ISO form,
but only the `update_yesterday_garmin.py` / `daily_garmin_health.py` variant
is total: its `try/except` returns unrecognized or unparseable inputs
unchanged (and it returns `None`, not the input, on the empty string), while
the `history_garmin_import.py` variant raises on a slash-form input whose
parts are not integers and is only raise-free on slash-free inputs, which it
returns unchanged. -/
theorem c9_normalizer_totality :
    normalizeDateHist "3/4/2024" = some "2024-03-04" ∧
      normalizeDateHist "2024-03-04" = some "2024-03-04" ∧
      normalizeDateSafe "3/4/2024" = some "2024-03-04" ∧
      normalizeDateSafe "2024-03-04" = some "2024-03-04" ∧
      normalizeDateSafe "a/b/c" = some "a/b/c" ∧
      normalizeDateSafe "" = none ∧
      (∀ s : String, strContains s '/' = false → normalizeDateHist s = some s) ∧
      (∀ s : String, s ≠ "" → (normalizeDateSafe s).isSome = true) := by
  refine ⟨by decide, by decide, by decide, by decide, by decide, by decide, ?_, ?_⟩
  · intro s h
    rw [normalizeDateHist, h]
    rfl
  · intro s hs
    rw [normalizeDateSafe, if_neg hs]
    split
    · rfl
    · split
      · split
        · split <;> rfl
        · rfl
      · rfl

/-- C9, witness for `c9_normalizer_totality` at concrete inputs. -/
theorem c9_normalizer_totality_witness :
    strContains "hello" '/' = false ∧ normalizeDateHist "hello" = some "hello" ∧
      ("7/4/x" ≠ "") ∧ (normalizeDateSafe "7/4/x").isSome = true :=
  ⟨by decide, c9_normalizer_totality.2.2.2.2.2.2.1 "hello" (by decide),
    by decide, c9_normalizer_totality.2.2.2.2.2.2.2 "7/4/x" (by decide)⟩

/-- C10, counterexample.  The claim says every call of
`aggregate_training_data` mutates both inputs.  A call whose lookback window
is empty returns `None` at line 100 before `title_clean` is ever added: the
stats frame's `Date` column is still converted in place, but the catalog
comes back exactly as it went in. -/
theorem c10_counterexample :
    (aggregateTrainingData [statRowUnmatched] catalogSample 10).1 = none ∧
      (aggregateTrainingData [statRowUnmatched] catalogSample 10).2.2 = catalogSample ∧
      catalogSample.titleClean = none ∧
      (aggregateTrainingData [statRowUnmatched] catalogSample 10).2.1 ≠
        [statRowUnmatched] := by
  refine ⟨by decide, by decide, by decide, by decide⟩

/-- C10, amended.  Every call converts the stats frame's `Date` column in
place (line 95 runs before the empty-window early return); the `title_clean`
column is added to the caller's catalog only on calls whose window is
non-empty — an empty-window call returns `None` with the catalog untouched. -/
theorem c10_aggregate_mutation :
    ∀ (stats : List SRow) (catalog : CatalogDF) (cutoff : ℤ),
      (aggregateTrainingData stats catalog cutoff).2.1 =
          (stats.map fun r => { r with day := PyDate.ts r.day.val }) ∧
      ((aggregateTrainingData stats catalog cutoff).1.isSome = true →
          (aggregateTrainingData stats catalog cutoff).2.2 = addTitleClean catalog) ∧
      ((aggregateTrainingData stats catalog cutoff).1 = none →
          (aggregateTrainingData stats catalog cutoff).2.2 = catalog) := by
  intro stats catalog cutoff
  rw [aggregateTrainingData]
  split
  · exact ⟨rfl, fun h => absurd h (by simp), fun _ => rfl⟩
  · exact ⟨rfl, fun _ => rfl, fun h => absurd h (by simp)⟩

/-- C10, witness for `c10_aggregate_mutation`: one empty-window call (catalog
untouched) and one non-empty-window call (`title_clean` added). -/
theorem c10_aggregate_mutation_witness :
    (aggregateTrainingData [statRowUnmatched] catalogSample 10).1 = none ∧
      (aggregateTrainingData [statRowUnmatched] catalogSample 10).2.2 = catalogSample ∧
      (aggregateTrainingData [statRowUnmatched] catalogSample 0).1.isSome = true ∧
      (aggregateTrainingData [statRowUnmatched] catalogSample 0).2.2 =
        addTitleClean catalogSample :=
  ⟨by decide,
    (c10_aggregate_mutation [statRowUnmatched] catalogSample 10).2.2 (by decide),
    by decide,
    (c10_aggregate_mutation [statRowUnmatched] catalogSample 0).2.1 (by decide)⟩

end AIFitness
